import Mathlib

/-!
Verification of the process-pastry core against its specification.

The development shallowly embeds the repository's Config Store
(`readEnv`, `writeEnv`, `readEnvExample` in `src/config-handler.ts`),
the control-plane PATCH handler (`src/server.ts`) and the Process
Lifecycle Manager (`src/process-manager.ts`).

Strings are modelled as `List Char`; a file's content is a `List Char`
that is split on the newline character exactly as JavaScript's
`String.split("\n")` does.  JavaScript `Record<string, string>` objects
are modelled as association lists with in-place-overwrite update, which
matches the insertion-order semantics of string-keyed records.
File-system access (`existsSync`, `readFileSync`, `writeFileSync`,
path resolution) is I/O and is factored out: the embedded functions work
on the file content that those calls read or write.
-/

namespace ProcessPastry

/-- A JavaScript string, modelled as a list of characters. -/
abbrev Line := List Char

/-- The single-quote character (written via its code point to keep the
source free of quote-literal noise). -/
def squote : Char := Char.ofNat 39

/-- Whitespace as recognised by JavaScript `String.prototype.trim` on the
ASCII range (space, tab, newline, carriage return, form feed, vertical tab). -/
def wsChar (c : Char) : Bool :=
  c = ' ' || c = '\t' || c = '\n' || c = '\r' || c = Char.ofNat 12 || c = Char.ofNat 11

/-- Drop leading whitespace (the left half of `trim`). -/
def trimLeft (l : Line) : Line := l.dropWhile wsChar

/-- Drop trailing whitespace (the right half of `trim`). -/
def trimRight (l : Line) : Line := (trimLeft l.reverse).reverse

/-- JavaScript `s.trim()`. -/
def trim (l : Line) : Line := trimRight (trimLeft l)

/-- JavaScript `content.split("\n")`: the empty string splits to one empty
segment, and every newline separates two segments. -/
def splitNL : List Char → List Line
  | [] => [[]]
  | c :: cs =>
    if c = '\n' then [] :: splitNL cs
    else
      match splitNL cs with
      | [] => [[c]]
      | l :: ls => (c :: l) :: ls

/-- `trimmed.indexOf("=")` together with the two `substring` calls of
`readEnv`: splits a line at the first occurrence of the delimiter,
returning the part before it and the part after it, or `none` when the
line has no delimiter (`equalIndex === -1`). -/
def breakAtEq : Line → Option (Line × Line)
  | [] => none
  | c :: cs =>
    if c = '=' then some ([], cs)
    else
      match breakAtEq cs with
      | none => none
      | some (pre, post) => some (c :: pre, post)

/-- `value.replace(/^["']|["']$/g, "")`: removes one leading quote
character (single or double) if present, and one trailing quote character
from what remains, independently of whether the two match. -/
def stripQuotes (v : Line) : Line :=
  let v1 :=
    match v with
    | c :: cs => if c = '"' ∨ c = squote then cs else v
    | [] => v
  match v1.getLast? with
  | some c => if c = '"' ∨ c = squote then v1.dropLast else v1
  | none => v1

/-- `config[key] = value` on a JavaScript record: overwrite in place when
the key is already present (keeping its position), append otherwise. -/
def recordSet {α : Type} : List (Line × α) → Line → α → List (Line × α)
  | [], k, v => [(k, v)]
  | e :: rest, k, v =>
    if e.1 = k then (k, v) :: rest else e :: recordSet rest k v

/-- Record lookup: the value stored at a key, if any. -/
def lookupCfg {α : Type} (k : Line) : List (Line × α) → Option α
  | [] => none
  | e :: rest => if e.1 = k then some e.2 else lookupCfg k rest

/-- The body of `readEnv`'s per-line callback, as the entry the line
contributes: `none` when the line is skipped (blank, comment, no
delimiter, space adjacent to the delimiter, or empty key), otherwise the
trimmed key with the trimmed, unquoted value. -/
def parseLine (line : Line) : Option (Line × Line) :=
  let trimmed := trim line
  if trimmed = [] then none
  else if trimmed.head? = some '#' then none
  else
    match breakAtEq trimmed with
    | none => none
    | some (pre, post) =>
      if pre.getLast? = some ' ' ∨ post.head? = some ' ' then none
      else
        let key := trim pre
        let value := trim post
        let unquotedValue := stripQuotes value
        if key = [] then none else some (key, unquotedValue)

/-- One iteration of `readEnv`'s `forEach`: fold the line's contribution
into the accumulated record. -/
def processLine (config : List (Line × Line)) (line : Line) : List (Line × Line) :=
  match parseLine line with
  | some (k, v) => recordSet config k v
  | none => config

/-- `readEnv` on the content of an existing file: split on newlines and
process each line in order. -/
def readEnvContent (content : List Char) : List (Line × Line) :=
  (splitNL content).foldl processLine []

/-- `value.replace(/"/g, '\\"')`: backslash-escape every double quote. -/
def escapeQuotes : Line → Line
  | [] => []
  | c :: cs => if c = '"' then '\\' :: '"' :: escapeQuotes cs else c :: escapeQuotes cs

/-- `writeEnv`'s per-value encoding: a value containing a space, `=` or
`#` is wrapped in double quotes with embedded double quotes escaped; all
other values are written bare. -/
def encodeValue (value : Line) : Line :=
  if ' ' ∈ value ∨ '=' ∈ value ∨ '#' ∈ value then
    '"' :: escapeQuotes value ++ ['"']
  else value

/-- One `KEY=VALUE` output line of `writeEnv`. -/
def encodeEntry (kv : Line × Line) : Line :=
  kv.1 ++ '=' :: encodeValue kv.2

/-- JavaScript `lines.join("\n")`. -/
def joinLines : List Line → List Char
  | [] => []
  | [l] => l
  | l :: ls => l ++ '\n' :: joinLines ls

/-- `writeEnv`: the file content produced for a config record. -/
def writeEnvContent (config : List (Line × Line)) : List Char :=
  joinLines (config.map encodeEntry)

/-- Schema metadata for one variable of the example file
(`EnvVariableSchema` in the source; an absent `defaultValue` field is
modelled as `none`). -/
structure EnvVariableSchema where
  description : Line
  defaultValue : Option Line
  commented : Bool
deriving DecidableEq

/-- First character class of the regex `/^[A-Z_][A-Z0-9_]*$/`. -/
def isUpperIdentStart (c : Char) : Bool :=
  ('A' ≤ c && c ≤ 'Z') || c = '_'

/-- Continuation character class of the regex `/^[A-Z_][A-Z0-9_]*$/`. -/
def isUpperIdentChar (c : Char) : Bool :=
  isUpperIdentStart c || ('0' ≤ c && c ≤ '9')

/-- The test `/^[A-Z_][A-Z0-9_]*$/.test(afterHash)`. -/
def isUpperIdent : Line → Bool
  | [] => false
  | c :: cs => isUpperIdentStart c && cs.all isUpperIdentChar

/-- One iteration of `readEnvExample`'s line loop, acting on the pair of
the schema record built so far and the pending-comment buffer
(`currentComments`).  Mirrors the source branch for branch, including the
quirks: a literally empty line is skipped without clearing the buffer,
while a whitespace-only line clears it; a malformed commented assignment
falls back to being collected as descriptive text. -/
def exampleStep (st : List (Line × EnvVariableSchema) × List Line) (line : Line) :
    List (Line × EnvVariableSchema) × List Line :=
  let schema := st.1
  let currentComments := st.2
  if line = [] then st
  else
    let trimmed := trim line
    if trimmed = [] then (schema, [])
    else if trimmed.head? = some '#' then
      let afterHash := trim (trimmed.drop 1)
      match breakAtEq afterHash with
      | some (pre, post) =>
        if pre.getLast? = some ' ' ∨ post.head? = some ' ' then
          (schema, if afterHash = [] then currentComments else currentComments ++ [afterHash])
        else
          let key := trim pre
          let unquotedValue := stripQuotes (trim post)
          ((if key = [] then schema
            else recordSet schema key
              { description := joinLines currentComments
                defaultValue := if unquotedValue = [] then none else some unquotedValue
                commented := true }), [])
      | none =>
        if isUpperIdent afterHash then
          (recordSet schema afterHash
            { description := joinLines currentComments
              defaultValue := none
              commented := true }, [])
        else
          (schema, if afterHash = [] then currentComments else currentComments ++ [afterHash])
    else
      match breakAtEq trimmed with
      | some (pre, post) =>
        if pre.getLast? = some ' ' ∨ post.head? = some ' ' then (schema, [])
        else
          let key := trim pre
          let unquotedValue := stripQuotes (trim post)
          ((if key = [] then schema
            else recordSet schema key
              { description := joinLines currentComments
                defaultValue := if unquotedValue = [] then none else some unquotedValue
                commented := false }), [])
      | none => (schema, [])

/-- `readEnvExample` on the content of an existing example file. -/
def readEnvExampleContent (content : List Char) : List (Line × EnvVariableSchema) :=
  ((splitNL content).foldl exampleStep ([], [])).1

/-- JavaScript object spread `{...current, ...partialConfig}`: entries of
the partial map overwrite in place or are appended, exactly `recordSet`
folded over the partial map. -/
def mergeCfg (current partialConfig : List (Line × Line)) : List (Line × Line) :=
  partialConfig.foldl (fun acc kv => recordSet acc kv.1 kv.2) current

/-- The PATCH handler of the control plane (restart sequencing aside):
decode the stored content, shallow-merge the partial map over it, encode
the result, and report the keys of the partial map
(`Object.keys(partialConfig)`). -/
def patchConfig (storedContent : List Char) (partialConfig : List (Line × Line)) :
    List Char × List Line :=
  let currentConfig := readEnvContent storedContent
  let mergedConfig := mergeCfg currentConfig partialConfig
  (writeEnvContent mergedConfig, partialConfig.map Prod.fst)

/-!
## Process Lifecycle Manager

`src/process-manager.ts` is asynchronous and talks to the operating
system.  The embedding makes the OS explicit as a `World` (which pids
exist, whether they are alive, their exit code) and makes the
asynchronous environment explicit as oracles: whether a `spawn` call
throws, and how the child reacts to SIGTERM.  Bun's single-threaded
await semantics let two back-to-back `await`ed calls be modelled as
sequential function application; the `exited` watcher callback is the
`watcherFire` transition, applied at the world steps where the child's
exit becomes visible.  The constructor's `command`/`envPath` fields and
the stdout/stderr drain loops only feed logging and the error buffer's
stderr accumulation, which no lifecycle transition reads; they are
omitted from the state.  The child environment built from
`readEnv(this.envPath)` is the `mergeCfg`/`readEnvContent` combination
verified separately above.
-/

/-- One operating-system process: whether it is alive, and its exit code
(`none` while running, and also `none` after death by signal, matching
Bun's `exitCode === null` for signal-terminated processes). -/
structure ProcState where
  alive : Bool
  exitCode : Option Int
deriving DecidableEq

/-- The operating system: a partial map from pid to process state plus
the next pid to hand out (real pids are nonzero, hence `1 ≤ next` in
`WFWorld`). -/
structure World where
  procs : Nat → Option ProcState
  next : Nat

/-- Liveness probe `process.kill(pid, 0)`: `true` exactly when the pid
exists and is alive. -/
def aliveAt (w : World) (p : Nat) : Bool :=
  match w.procs p with
  | some ps => ps.alive
  | none => false

/-- The handle's `exitCode` field for pid `p`. -/
def exitCodeAt (w : World) (p : Nat) : Option Int :=
  match w.procs p with
  | some ps => ps.exitCode
  | none => none

/-- The process `p` terminates with the given exit code (`none` for
death by signal). -/
def procExit (w : World) (p : Nat) (code : Option Int) : World :=
  { w with procs := fun q => if q = p then some ⟨false, code⟩ else w.procs q }

/-- A successful `spawn`: a fresh live process at pid `w.next`. -/
def spawnProc (w : World) : World :=
  { procs := fun q => if q = w.next then some ⟨true, none⟩ else w.procs q
    next := w.next + 1 }

/-- Well-formedness of the OS model: an exited process is never alive,
and pids are nonzero. -/
def WFWorld (w : World) : Prop :=
  (∀ p ps, w.procs p = some ps → ps.exitCode ≠ none → ps.alive = false) ∧ 1 ≤ w.next

/-- The mutable fields of `ProcessManager` that the lifecycle
transitions read and write: the child handle (as the child's pid) and
the accumulated error text. -/
structure Mgr where
  childProcess : Option Nat
  lastError : Line
deriving DecidableEq

/-- `ProcessStatus` as returned by `getStatus`. -/
structure ProcessStatus where
  running : Bool
  lastError : Option Line
  pid : Option Nat
deriving DecidableEq

/-- Decimal digits of a natural number, as `${n}` renders it
(fuel-based recursion on the number of digits). -/
def natToCharsCore : Nat → Nat → List Char → List Char
  | 0, _, acc => acc
  | fuel + 1, n, acc =>
    let d := Char.ofNat (48 + n % 10)
    if n < 10 then d :: acc else natToCharsCore fuel (n / 10) (d :: acc)

/-- `${n}` for a natural number. -/
def natToChars (n : Nat) : List Char := natToCharsCore (n + 1) n []

/-- `${i}` for a JavaScript number holding an integer. -/
def intToChars : Int → List Char
  | Int.ofNat n => natToChars n
  | Int.negSucc n => '-' :: natToChars (n + 1)

/-- The note `\nProcess exited with code N` appended by the exit
watcher. -/
def exitNote (code : Int) : List Char :=
  '\n' :: ("Process exited with code ".toList ++ intToChars code)

/-- The `childProcess.exited.then(...)` watcher callback: append the exit
note when the code is non-zero and non-null, then clear the handle. -/
def watcherFire (m : Mgr) (code : Option Int) : Mgr :=
  { childProcess := none
    lastError :=
      match code with
      | some c => if c = 0 then m.lastError else m.lastError ++ exitNote c
      | none => m.lastError }

/-- Environment oracle for one `start` call: whether `spawn` throws (and
with what message), and whether/how the previous child reacts to the
SIGTERM sent by the embedded `kill` — after how many 100 ms polls it
exits, and with which exit code (`none` models death by the signal). -/
structure StartOracle where
  spawnErr : Option Line
  termResp : Option (Nat × Option Int)

/-- The polling loop of `kill`: at each tick check, in source order,
whether the handle was cleared (by the watcher), whether the handle's
exit code is set, and whether the liveness probe fails; any of these ends
the wait with the handle cleared.  Otherwise sleep 100 ms, during which
the child may exit per the oracle (its watcher then fires).  When the
fuel (the `timeoutMs` budget in ticks) runs out, send SIGKILL, wait the
grace period and clear the handle unconditionally. -/
def killLoop (p : Nat) : Mgr → World → Option (Nat × Option Int) → Nat → Mgr × World
  | m, w, _, 0 => ({ m with childProcess := none }, procExit w p none)
  | m, w, resp, fuel + 1 =>
    if m.childProcess = none then (m, w)
    else if exitCodeAt w p ≠ none then ({ m with childProcess := none }, w)
    else if aliveAt w p = false then ({ m with childProcess := none }, w)
    else
      match resp with
      | some (0, code) => killLoop p (watcherFire m code) (procExit w p code) none fuel
      | some (d + 1, code) => killLoop p m w (some (d, code)) fuel
      | none => killLoop p m w none fuel

/-- `kill(timeoutMs)`: no-op without a handle; the defensive `!pid` guard
clears a falsy pid without signalling; otherwise send SIGTERM (its effect
arrives through the oracle) and run the polling loop with
`timeoutMs / 100` ticks of fuel. -/
def kill (m : Mgr) (w : World) (termResp : Option (Nat × Option Int)) (fuelTicks : Nat) :
    Mgr × World :=
  match m.childProcess with
  | none => (m, w)
  | some p =>
    if p = 0 then ({ m with childProcess := none }, w)
    else killLoop p m w termResp fuelTicks

/-- The `Kill existing process if running` step at the top of `start`:
when a handle is present, run the full termination sequence and await its
completion. -/
def startKillPhase (m : Mgr) (w : World) (o : StartOracle) (fuelTicks : Nat) : Mgr × World :=
  match m.childProcess with
  | some _ => kill m w o.termResp fuelTicks
  | none => (m, w)

/-- The text `Failed to start process: ` that the catch block of `start`
puts in front of the thrown error. -/
def spawnFailText : List Char := "Failed to start process: ".toList

/-- `start()`: clear the accumulated error, kill-and-await any existing
child, then spawn.  A throwing spawn is caught: the error is recorded as
`Failed to start process: ...` and the handle stays null — nothing is
rethrown, which the embedding reflects by `start` being a total function
into plain states. -/
def start (m : Mgr) (w : World) (o : StartOracle) (fuelTicks : Nat) : Mgr × World :=
  let s1 := startKillPhase { m with lastError := [] } w o fuelTicks
  match o.spawnErr with
  | some e =>
    ({ childProcess := none
       lastError := spawnFailText ++ e }, s1.2)
  | none =>
    ({ s1.1 with childProcess := some s1.2.next }, spawnProc s1.2)

/-- `getStatus()`: `running` is handle-present and exit code still
unknown; `lastError` is the accumulated text or null when empty; `pid`
is the handle's pid with JavaScript's `|| null` collapsing a falsy pid. -/
def getStatus (m : Mgr) (w : World) : ProcessStatus :=
  { running :=
      match m.childProcess with
      | some p => exitCodeAt w p = none
      | none => false
    lastError := if m.lastError = [] then none else some m.lastError
    pid :=
      match m.childProcess with
      | some p => if p = 0 then none else some p
      | none => none }

/-- Spec-side characterization (for comparison with `readEnvContent`):
the value the spec assigns to key `k` — the value of the last line of the
file that parses as an entry for `k`, later lines overwriting earlier
ones. -/
def specLastValue (k : Line) : List Line → Option Line
  | [] => none
  | l :: ls =>
    match specLastValue k ls with
    | some v => some v
    | none =>
      match parseLine l with
      | some kv => if kv.1 = k then some kv.2 else none
      | none => none

/-- Keys for which one encoded `KEY=VALUE` line decodes back exactly:
non-empty, no surrounding whitespace, no newline, no delimiter, and not
starting with the comment marker. -/
def GoodKey (k : Line) : Prop :=
  k ≠ [] ∧ trim k = k ∧ '\n' ∉ k ∧ '=' ∉ k ∧ k.head? ≠ some '#'

/-- Values that survive the encode/decode cycle: no surrounding
whitespace, no newline, and no quote character (the decoder strips edge
quotes without unescaping, so quote characters do not round-trip). -/
def GoodValue (v : Line) : Prop :=
  trim v = v ∧ '\n' ∉ v ∧ '"' ∉ v ∧ squote ∉ v

instance (k : Line) : Decidable (GoodKey k) := by unfold GoodKey; infer_instance

instance (v : Line) : Decidable (GoodValue v) := by unfold GoodValue; infer_instance

/-!
## Lemmas about trimming
-/

lemma trimLeft_cons_not_ws {c : Char} {cs : Line} (h : wsChar c = false) :
    trimLeft (c :: cs) = c :: cs := by
  simp [trimLeft, List.dropWhile_cons, h]

lemma trimLeft_eq_self_of_head {l : Line}
    (h : ∀ c, l.head? = some c → wsChar c = false) :
    trimLeft l = l := by
  cases l with
  | nil => rfl
  | cons c cs => exact trimLeft_cons_not_ws (h c rfl)

lemma trim_eq_self_of {l : Line}
    (h1 : ∀ c, l.head? = some c → wsChar c = false)
    (h2 : ∀ c, l.getLast? = some c → wsChar c = false) :
    trim l = l := by
  have hl : trimLeft l = l := trimLeft_eq_self_of_head h1
  have hr : trimRight l = l := by
    have hrev : trimLeft l.reverse = l.reverse := by
      refine trimLeft_eq_self_of_head ?_
      intro c hc
      rw [List.head?_reverse] at hc
      exact h2 c hc
    rw [trimRight, hrev, List.reverse_reverse]
  rw [trim, hl, hr]

lemma length_trimLeft_le (l : Line) : (trimLeft l).length ≤ l.length :=
  (List.dropWhile_suffix wsChar).length_le

lemma length_trimRight_le (l : Line) : (trimRight l).length ≤ l.length := by
  have := length_trimLeft_le l.reverse
  simpa [trimRight] using this

lemma trimLeft_eq_self_of_trim {l : Line} (h : trim l = l) : trimLeft l = l := by
  have h1 : (trimLeft l).length ≤ l.length := length_trimLeft_le l
  have h2 : (trim l).length ≤ (trimLeft l).length := length_trimRight_le (trimLeft l)
  rw [h] at h2
  exact (List.dropWhile_suffix wsChar).eq_of_length (le_antisymm h1 h2)

lemma head_not_ws_of_trimLeft {c : Char} {cs : Line}
    (h : trimLeft (c :: cs) = c :: cs) : wsChar c = false := by
  by_contra hc
  rw [Bool.not_eq_false] at hc
  rw [trimLeft, List.dropWhile_cons, if_pos hc] at h
  have hle := (List.dropWhile_suffix (l := cs) wsChar).length_le
  rw [h] at hle
  simp at hle

lemma trimRight_eq_self_of_trim {l : Line} (h : trim l = l) :
    trimLeft l.reverse = l.reverse := by
  have hl : trimLeft l = l := trimLeft_eq_self_of_trim h
  have hr : trimRight l = l := by rw [trim, hl] at h; exact h
  rw [trimRight] at hr
  have := congrArg List.reverse hr
  rwa [List.reverse_reverse] at this

lemma not_ws_of_trim_eq_self {l : Line} (h : trim l = l) :
    (∀ c, l.head? = some c → wsChar c = false) ∧
    (∀ c, l.getLast? = some c → wsChar c = false) := by
  constructor
  · intro c hc
    cases l with
    | nil => simp at hc
    | cons d ds =>
      simp only [List.head?_cons, Option.some.injEq] at hc
      subst hc
      exact head_not_ws_of_trimLeft (trimLeft_eq_self_of_trim h)
  · intro c hc
    rw [← List.head?_reverse] at hc
    have hrev := trimRight_eq_self_of_trim h
    cases hr : l.reverse with
    | nil => rw [hr] at hc; simp at hc
    | cons d ds =>
      rw [hr] at hc hrev
      simp only [List.head?_cons, Option.some.injEq] at hc
      subst hc
      exact head_not_ws_of_trimLeft hrev

/-!
## Lemmas about line splitting and joining
-/

lemma splitNL_of_not_mem {l : Line} (h : '\n' ∉ l) : splitNL l = [l] := by
  induction l with
  | nil => rfl
  | cons c cs ih =>
    have hc : ¬ c = '\n' := fun e => h (e ▸ List.mem_cons_self c cs)
    have hcs : '\n' ∉ cs := fun m => h (List.mem_cons_of_mem c m)
    rw [splitNL, if_neg hc, ih hcs]

lemma splitNL_append_nl {l : Line} (r : List Char) (h : '\n' ∉ l) :
    splitNL (l ++ '\n' :: r) = l :: splitNL r := by
  induction l with
  | nil => simp [splitNL]
  | cons c cs ih =>
    have hc : ¬ c = '\n' := fun e => h (e ▸ List.mem_cons_self c cs)
    have hcs : '\n' ∉ cs := fun m => h (List.mem_cons_of_mem c m)
    rw [List.cons_append, splitNL, if_neg hc, ih hcs]

lemma splitNL_joinLines {ls : List Line} (hne : ls ≠ [])
    (h : ∀ l ∈ ls, '\n' ∉ l) : splitNL (joinLines ls) = ls := by
  induction ls with
  | nil => exact absurd rfl hne
  | cons l ls ih =>
    cases ls with
    | nil => simpa [joinLines] using splitNL_of_not_mem (h l (List.mem_cons_self l []))
    | cons l2 ls2 =>
      show splitNL (l ++ '\n' :: joinLines (l2 :: ls2)) = l :: l2 :: ls2
      rw [splitNL_append_nl _ (h l (List.mem_cons_self l _))]
      rw [ih (by simp) (fun x hx => h x (List.mem_cons_of_mem l hx))]

/-!
## Lemmas about the delimiter split and quote handling
-/

lemma breakAtEq_append {k : Line} (rest : Line) (h : '=' ∉ k) :
    breakAtEq (k ++ '=' :: rest) = some (k, rest) := by
  induction k with
  | nil => simp [breakAtEq]
  | cons c cs ih =>
    have hc : ¬ c = '=' := fun e => h (e ▸ List.mem_cons_self c cs)
    have hcs : '=' ∉ cs := fun m => h (List.mem_cons_of_mem c m)
    rw [List.cons_append, breakAtEq, if_neg hc, ih hcs]

lemma stripQuotes_wrap {q₁ q₂ : Char} (mid : Line)
    (h₁ : q₁ = '"' ∨ q₁ = squote) (h₂ : q₂ = '"' ∨ q₂ = squote) :
    stripQuotes (q₁ :: (mid ++ [q₂])) = mid := by
  simp only [stripQuotes, if_pos h₁, List.getLast?_concat, if_pos h₂, List.dropLast_concat]

lemma stripQuotes_eq_self {v : Line}
    (h1 : ∀ c, v.head? = some c → ¬(c = '"' ∨ c = squote))
    (h2 : ∀ c, v.getLast? = some c → ¬(c = '"' ∨ c = squote)) :
    stripQuotes v = v := by
  cases v with
  | nil => rfl
  | cons c cs =>
    have hc := h1 c rfl
    simp only [stripQuotes]
    rw [if_neg hc]
    cases hg : (c :: cs).getLast? with
    | none => rfl
    | some d =>
      show (if d = '"' ∨ d = squote then (c :: cs).dropLast else c :: cs) = c :: cs
      rw [if_neg (h2 d hg)]

lemma escapeQuotes_eq_self {v : Line} (h : '"' ∉ v) : escapeQuotes v = v := by
  induction v with
  | nil => rfl
  | cons c cs ih =>
    have hc : ¬ c = '"' := fun e => h (e ▸ List.mem_cons_self c cs)
    have hcs : '"' ∉ cs := fun m => h (List.mem_cons_of_mem c m)
    rw [escapeQuotes, if_neg hc, ih hcs]

/-!
## Lemmas about record update and lookup
-/

lemma recordSet_append {α : Type} {cfg : List (Line × α)} {k : Line} (v : α)
    (h : k ∉ cfg.map Prod.fst) : recordSet cfg k v = cfg ++ [(k, v)] := by
  induction cfg with
  | nil => rfl
  | cons e rest ih =>
    rw [List.map_cons, List.mem_cons, not_or] at h
    have he : ¬ e.1 = k := fun hek => h.1 hek.symm
    rw [recordSet, if_neg he, ih h.2, List.cons_append]

lemma lookupCfg_recordSet {α : Type} (cfg : List (Line × α)) (k k' : Line) (v : α) :
    lookupCfg k (recordSet cfg k' v) =
      if k' = k then some v else lookupCfg k cfg := by
  induction cfg with
  | nil => simp [recordSet, lookupCfg]
  | cons e rest ih =>
    by_cases he : e.1 = k'
    · rw [recordSet, if_pos he]
      by_cases hk : k' = k
      · simp [lookupCfg, hk]
      · have hek : ¬ e.1 = k := by rw [he]; exact hk
        simp [lookupCfg, hk, hek]
    · rw [recordSet, if_neg he]
      by_cases hek : e.1 = k
      · have hk' : ¬ k' = k := fun h => he (hek.trans h.symm)
        simp [lookupCfg, hek, hk']
      · simp [lookupCfg, hek, ih]

lemma map_fst_recordSet {α : Type} (cfg : List (Line × α)) (k : Line) (v : α) :
    (recordSet cfg k v).map Prod.fst =
      if k ∈ cfg.map Prod.fst then cfg.map Prod.fst
      else cfg.map Prod.fst ++ [k] := by
  induction cfg with
  | nil => simp [recordSet]
  | cons e rest ih =>
    by_cases he : e.1 = k
    · rw [recordSet, if_pos he, List.map_cons, List.map_cons]
      rw [if_pos (by rw [he]; exact List.mem_cons_self _ _)]
      simp [he]
    · rw [recordSet, if_neg he, List.map_cons, List.map_cons, ih]
      have hke : ¬ k = e.1 := fun h => he h.symm
      by_cases hm : k ∈ rest.map Prod.fst
      · rw [if_pos hm, if_pos (List.mem_cons_of_mem _ hm)]
      · rw [if_neg hm, if_neg (by rw [List.mem_cons, not_or]; exact ⟨hke, hm⟩)]
        rw [List.cons_append]

lemma nodup_recordSet {α : Type} {cfg : List (Line × α)} (k : Line) (v : α)
    (h : (cfg.map Prod.fst).Nodup) : ((recordSet cfg k v).map Prod.fst).Nodup := by
  rw [map_fst_recordSet]
  by_cases hm : k ∈ cfg.map Prod.fst
  · rwa [if_pos hm]
  · rw [if_neg hm]
    refine List.Nodup.append h (List.nodup_singleton k) ?_
    intro x hx hxk
    rw [List.mem_singleton] at hxk
    exact hm (hxk ▸ hx)

lemma lookupCfg_eq_none {α : Type} {cfg : List (Line × α)} {k : Line}
    (h : k ∉ cfg.map Prod.fst) : lookupCfg k cfg = none := by
  induction cfg with
  | nil => rfl
  | cons e rest ih =>
    rw [List.map_cons, List.mem_cons, not_or] at h
    have he : ¬ e.1 = k := fun hek => h.1 hek.symm
    rw [lookupCfg, if_neg he, ih h.2]

/-!
## Decoding an encoded entry line
-/

lemma encodeValue_quoted {v : Line} (hq : ' ' ∈ v ∨ '=' ∈ v ∨ '#' ∈ v)
    (hdq : '"' ∉ v) : encodeValue v = '"' :: (v ++ ['"']) := by
  rw [encodeValue, if_pos hq, escapeQuotes_eq_self hdq]; rfl

lemma encodeValue_bare {v : Line} (hq : ¬(' ' ∈ v ∨ '=' ∈ v ∨ '#' ∈ v)) :
    encodeValue v = v := by
  rw [encodeValue, if_neg hq]

lemma parseLine_keyval {k ev val : Line}
    (hk0 : k ≠ []) (hkt : trim k = k) (hkeq : '=' ∉ k) (hkh : k.head? ≠ some '#')
    (hevhead : ∀ c, ev.head? = some c → wsChar c = false)
    (hevlast : ∀ c, ev.getLast? = some c → wsChar c = false)
    (hstrip : stripQuotes ev = val) :
    parseLine (k ++ '=' :: ev) = some (k, val) := by
  obtain ⟨c₀, k₀, hk⟩ := List.exists_cons_of_ne_nil hk0
  obtain ⟨hkhead, hklast⟩ := not_ws_of_trim_eq_self hkt
  have hc₀ : wsChar c₀ = false := hkhead c₀ (by rw [hk]; rfl)
  have hline_last : ∀ c, (k ++ '=' :: ev).getLast? = some c → wsChar c = false := by
    intro c hc
    rw [List.getLast?_append_of_ne_nil _ (by simp)] at hc
    cases hev0 : ev with
    | nil =>
      rw [hev0] at hc
      simp only [List.getLast?_singleton, Option.some.injEq] at hc
      subst hc; decide
    | cons d ds =>
      rw [hev0, show ('=' :: d :: ds) = ['='] ++ (d :: ds) from rfl,
        List.getLast?_append_of_ne_nil _ (by simp)] at hc
      exact hevlast c (hev0 ▸ hc)
  have htrim : trim (k ++ '=' :: ev) = k ++ '=' :: ev := by
    refine trim_eq_self_of ?_ hline_last
    intro c hc
    rw [hk, List.cons_append, List.head?_cons, Option.some.injEq] at hc
    exact hc ▸ hc₀
  have hne : ¬(k ++ '=' :: ev = []) := by rw [hk]; simp
  have hhash : ¬((k ++ '=' :: ev).head? = some '#') := by
    rw [hk, List.cons_append, List.head?_cons]
    intro hcontra
    exact hkh (by rw [hk, List.head?_cons]; exact hcontra)
  have hsp : ¬(k.getLast? = some ' ' ∨ ev.head? = some ' ') := by
    rintro (h | h)
    · exact absurd (hklast ' ' h) (by decide)
    · exact absurd (hevhead ' ' h) (by decide)
  simp only [parseLine]
  rw [htrim, if_neg hne, if_neg hhash, breakAtEq_append ev hkeq]
  show (if k.getLast? = some ' ' ∨ ev.head? = some ' ' then none
        else if trim k = [] then none
        else some (trim k, stripQuotes (trim ev))) = some (k, val)
  rw [if_neg hsp, hkt, if_neg hk0, trim_eq_self_of hevhead hevlast, hstrip]

lemma parseLine_encodeEntry {k v : Line} (hk : GoodKey k) (hv : GoodValue v) :
    parseLine (encodeEntry (k, v)) = some (k, v) := by
  obtain ⟨hk0, hkt, _, hkeq, hkh⟩ := hk
  obtain ⟨hvt, _, hvq, hvsq⟩ := hv
  show parseLine (k ++ '=' :: encodeValue v) = some (k, v)
  by_cases hq : ' ' ∈ v ∨ '=' ∈ v ∨ '#' ∈ v
  · rw [encodeValue_quoted hq hvq]
    refine parseLine_keyval hk0 hkt hkeq hkh ?_ ?_ ?_
    · intro c hc
      rw [List.head?_cons, Option.some.injEq] at hc
      subst hc; decide
    · intro c hc
      rw [show ('"' :: (v ++ ['"'])) = ('"' :: v) ++ ['"'] from by simp,
        List.getLast?_concat, Option.some.injEq] at hc
      subst hc; decide
    · exact stripQuotes_wrap v (Or.inl rfl) (Or.inl rfl)
  · rw [encodeValue_bare hq]
    push_neg at hq
    obtain ⟨hvhead, hvlast⟩ := not_ws_of_trim_eq_self hvt
    refine parseLine_keyval hk0 hkt hkeq hkh hvhead hvlast ?_
    refine stripQuotes_eq_self ?_ ?_
    · intro c hc hor
      have hcv : c ∈ v := List.mem_of_mem_head? (by rw [hc]; rfl)
      rcases hor with h | h
      · exact hvq (h ▸ hcv)
      · exact hvsq (h ▸ hcv)
    · intro c hc hor
      have hcv : c ∈ v := List.mem_of_mem_getLast? (by rw [hc]; rfl)
      rcases hor with h | h
      · exact hvq (h ▸ hcv)
      · exact hvsq (h ▸ hcv)

lemma nl_not_mem_encodeEntry {kv : Line × Line}
    (hk : '\n' ∉ kv.1) (hv : '\n' ∉ kv.2) (hvq : '"' ∉ kv.2) :
    '\n' ∉ encodeEntry kv := by
  intro hmem
  rw [encodeEntry] at hmem
  rcases List.mem_append.1 hmem with h | h
  · exact hk h
  · rcases List.mem_cons.1 h with h | h
    · exact absurd h (by decide)
    · rw [encodeValue] at h
      by_cases hq : ' ' ∈ kv.2 ∨ '=' ∈ kv.2 ∨ '#' ∈ kv.2
      · rw [if_pos hq, escapeQuotes_eq_self hvq] at h
        rcases List.mem_cons.1 h with h | h
        · exact absurd h (by decide)
        · rcases List.mem_append.1 h with h | h
          · exact hv h
          · exact absurd (List.mem_singleton.1 h) (by decide)
      · rw [if_neg hq] at h
        exact hv h

lemma foldl_processLine_encode (cfg : List (Line × Line)) :
    ∀ acc : List (Line × Line),
      (cfg.map Prod.fst).Nodup →
      (∀ kv ∈ cfg, GoodKey kv.1 ∧ GoodValue kv.2) →
      (∀ x ∈ cfg.map Prod.fst, x ∉ acc.map Prod.fst) →
      (cfg.map encodeEntry).foldl processLine acc = acc ++ cfg := by
  induction cfg with
  | nil => intro acc _ _ _; simp
  | cons kv rest ih =>
    intro acc hnd hgood hdisj
    have hgkv := hgood kv (List.mem_cons_self _ _)
    have hknotacc : kv.1 ∉ acc.map Prod.fst :=
      hdisj kv.1 (by rw [List.map_cons]; exact List.mem_cons_self _ _)
    have hstep : processLine acc (encodeEntry kv) = acc ++ [kv] := by
      rw [processLine, parseLine_encodeEntry hgkv.1 hgkv.2]
      exact recordSet_append kv.2 hknotacc
    rw [List.map_cons, List.foldl_cons, hstep]
    rw [List.map_cons] at hnd
    have hnd' := (List.nodup_cons.1 hnd).2
    have hkv1 := (List.nodup_cons.1 hnd).1
    rw [ih (acc ++ [kv]) hnd' (fun x hx => hgood x (List.mem_cons_of_mem _ hx)) ?_]
    · rw [List.append_assoc]; rfl
    · intro x hx
      rw [List.map_append, List.mem_append, not_or]
      refine ⟨hdisj x (by rw [List.map_cons]; exact List.mem_cons_of_mem _ hx), ?_⟩
      intro hxkv
      simp only [List.map_cons, List.map_nil, List.mem_singleton] at hxkv
      exact hkv1 (hxkv ▸ hx)

/-!
## C1 — round-trip of the Config Store
-/

/-- C1 (counterexample): the round-trip claim as stated is false.  The
map sending `K` to the one-character value consisting of a single quote
has no newline in any value, yet `writeEnv` emits the line `K='` bare and
`readEnv` strips the edge quote, decoding the value to the empty string. -/
theorem readEnv_writeEnv_roundTrip_cex :
    (∀ kv ∈ ([(['K'], [squote])] : List (Line × Line)), '\n' ∉ kv.2) ∧
    readEnvContent (writeEnvContent [(['K'], [squote])]) ≠ [(['K'], [squote])] := by
  decide

/-- C1 (amended): round-trip of the Config Store holds for every
`ConfigMap` with distinct keys whose keys are non-empty, free of
newlines, `=` and surrounding whitespace and do not start with `#`, and
whose values are free of newlines, quote characters and surrounding
whitespace: `readEnv` applied to the text written by `writeEnv` returns
exactly the map. -/
theorem readEnv_writeEnv_roundTrip (cfg : List (Line × Line))
    (hnd : (cfg.map Prod.fst).Nodup)
    (hgood : ∀ kv ∈ cfg, GoodKey kv.1 ∧ GoodValue kv.2) :
    readEnvContent (writeEnvContent cfg) = cfg := by
  cases hc : cfg with
  | nil => rfl
  | cons kv rest =>
    subst hc
    rw [readEnvContent, writeEnvContent]
    rw [splitNL_joinLines (by simp) ?hnl]
    case hnl =>
      intro l hl
      rw [List.mem_map] at hl
      obtain ⟨kv', hkv', rfl⟩ := hl
      have hg := hgood kv' hkv'
      exact nl_not_mem_encodeEntry hg.1.2.2.1 hg.2.2.1 hg.2.2.2.1
    rw [foldl_processLine_encode (kv :: rest) [] hnd hgood (by simp)]
    rfl

/-- Witness for C1 (amended) at a concrete two-entry map. -/
theorem readEnv_writeEnv_roundTrip_witness :
    ((([(['A'], "hello world".toList), (['B'], ['1'])] : List (Line × Line)).map
        Prod.fst).Nodup ∧
      (∀ kv ∈ ([(['A'], "hello world".toList), (['B'], ['1'])] : List (Line × Line)),
        GoodKey kv.1 ∧ GoodValue kv.2)) ∧
    readEnvContent
        (writeEnvContent [(['A'], "hello world".toList), (['B'], ['1'])]) =
      [(['A'], "hello world".toList), (['B'], ['1'])] :=
  ⟨⟨by decide, by decide⟩,
    readEnv_writeEnv_roundTrip _ (by decide) (by decide)⟩

/-!
## C3 — malformed-line tolerance
-/

/-- C3: a line whose trimmed form has a space immediately before or
after the first `=` is silently skipped by `readEnv` — it contributes
nothing to the decoded map; in particular decoding the file `KEY = value`
yields the empty map, which omits `KEY`. -/
theorem malformed_line_skipped :
    (∀ (config : List (Line × Line)) (line pre post : Line),
        breakAtEq (trim line) = some (pre, post) →
        pre.getLast? = some ' ' ∨ post.head? = some ' ' →
        processLine config line = config) ∧
    readEnvContent ("KEY = value".toList) = [] ∧
    lookupCfg "KEY".toList (readEnvContent ("KEY = value".toList)) = none := by
  refine ⟨?_, by decide, by decide⟩
  intro config line pre post hbr hsp
  have hp : parseLine line = none := by
    simp only [parseLine]
    by_cases h0 : trim line = []
    · rw [h0] at hbr
      exact absurd hbr (by simp [breakAtEq])
    · rw [if_neg h0]
      by_cases h1 : (trim line).head? = some '#'
      · rw [if_pos h1]
      · rw [if_neg h1, hbr]
        show (if pre.getLast? = some ' ' ∨ post.head? = some ' ' then none
              else if trim pre = [] then none
              else some (trim pre, stripQuotes (trim post))) = none
        rw [if_pos hsp]
  rw [processLine, hp]

/-- Witness for C3 on the line `KEY = value`. -/
theorem malformed_line_skipped_witness :
    breakAtEq (trim ("KEY = value".toList)) = some ("KEY ".toList, " value".toList) ∧
    processLine [(['X'], ['1'])] ("KEY = value".toList) = [(['X'], ['1'])] :=
  ⟨by decide,
    malformed_line_skipped.1 [(['X'], ['1'])] ("KEY = value".toList)
      ("KEY ".toList) (" value".toList) (by decide) (by decide)⟩

/-!
## C9 — independent edge-quote stripping
-/

/-- C9: the decoder's quote removal strips one leading quote character
and one trailing quote character independently, with no requirement that
they match or that both be present: any wrapped `q₁ · mid · q₂` with
quote characters `q₁, q₂` strips to `mid`, the line `KEY="value'`
decodes to value `value`, and the unterminated `KEY="value` also decodes
to `value`. -/
theorem stripQuotes_independent :
    (∀ (q₁ q₂ : Char) (mid : Line),
        q₁ = '"' ∨ q₁ = squote → q₂ = '"' ∨ q₂ = squote →
        stripQuotes (q₁ :: (mid ++ [q₂])) = mid) ∧
    readEnvContent ("KEY=".toList ++ '"' :: ("value".toList ++ [squote])) =
      [("KEY".toList, "value".toList)] ∧
    readEnvContent ("KEY=".toList ++ '"' :: "value".toList) =
      [("KEY".toList, "value".toList)] :=
  ⟨fun _ _ mid h₁ h₂ => stripQuotes_wrap mid h₁ h₂, by decide, by decide⟩

/-- Witness for C9 with a double quote on the left and a single quote on
the right. -/
theorem stripQuotes_independent_witness :
    (('"' : Char) = '"' ∨ ('"' : Char) = squote) ∧
    stripQuotes ('"' :: ("ab".toList ++ [squote])) = "ab".toList :=
  ⟨Or.inl rfl,
    stripQuotes_independent.1 '"' squote ("ab".toList) (Or.inl rfl) (Or.inr rfl)⟩

/-!
## C10 — duplicate keys: later lines overwrite earlier ones
-/

lemma lookupCfg_foldl_processLine (lines : List Line) :
    ∀ (acc : List (Line × Line)) (k : Line),
      lookupCfg k (lines.foldl processLine acc) =
        match specLastValue k lines with
        | some v => some v
        | none => lookupCfg k acc := by
  induction lines with
  | nil => intro acc k; rfl
  | cons l ls ih =>
    intro acc k
    rw [List.foldl_cons, ih, specLastValue]
    cases hS : specLastValue k ls with
    | some v => rfl
    | none =>
      rw [processLine]
      cases hp : parseLine l with
      | none => rfl
      | some kv =>
        obtain ⟨k', v⟩ := kv
        show lookupCfg k (recordSet acc k' v) =
          match (if k' = k then some v else none : Option Line) with
          | some v => some v
          | none => lookupCfg k acc
        rw [lookupCfg_recordSet]
        by_cases hk : k' = k
        · rw [if_pos hk, if_pos hk]
        · rw [if_neg hk, if_neg hk]

lemma nodup_foldl_processLine (lines : List Line) :
    ∀ acc : List (Line × Line),
      (acc.map Prod.fst).Nodup →
      ((lines.foldl processLine acc).map Prod.fst).Nodup := by
  induction lines with
  | nil => intro acc h; exact h
  | cons l ls ih =>
    intro acc h
    rw [List.foldl_cons]
    refine ih _ ?_
    rw [processLine]
    cases hp : parseLine l with
    | none => exact h
    | some kv => exact nodup_recordSet kv.1 kv.2 h

/-- C10: when a key appears on several well-formed `KEY=VALUE` lines, the
decoded map holds the value of the last such line (later lines overwrite
earlier ones), and the keys of the decoded map are always distinct. -/
theorem readEnv_duplicate_keys_last_wins (content : List Char) (k : Line) :
    lookupCfg k (readEnvContent content) = specLastValue k (splitNL content) ∧
    ((readEnvContent content).map Prod.fst).Nodup := by
  constructor
  · rw [readEnvContent, lookupCfg_foldl_processLine]
    cases specLastValue k (splitNL content) <;> rfl
  · exact nodup_foldl_processLine _ [] (by simp)

/-!
## C4 — schema-parsing scenario
-/

/-- C4: `readEnvExample` on the five-line example file of the
specification returns exactly `PORT` with the two comment lines joined by
a newline as description, default `3000` and `commented = false`, and
`API_KEY` with description `Required API key`, default `sk-example` and
`commented = true`. -/
theorem readEnvExample_scenario :
    readEnvExampleContent
        (("# Server port\n# Default: 3000\nPORT=3000\n# Required API key\n#API_KEY=sk-example").toList) =
      [("PORT".toList,
        { description := "Server port\nDefault: 3000".toList
          defaultValue := some ("3000".toList)
          commented := false }),
       ("API_KEY".toList,
        { description := "Required API key".toList
          defaultValue := some ("sk-example".toList)
          commented := true })] := by
  decide

/-!
## C5 — patch semantics
-/

lemma lookupCfg_mergeCfg (P : List (Line × Line)) :
    ∀ (C : List (Line × Line)) (k : Line), (P.map Prod.fst).Nodup →
      lookupCfg k (mergeCfg C P) =
        match lookupCfg k P with
        | some v => some v
        | none => lookupCfg k C := by
  induction P with
  | nil => intro C k _; rfl
  | cons kv P ih =>
    intro C k hnd
    rw [List.map_cons] at hnd
    have h1 := (List.nodup_cons.1 hnd).1
    have h2 := (List.nodup_cons.1 hnd).2
    rw [show mergeCfg C (kv :: P) = mergeCfg (recordSet C kv.1 kv.2) P from rfl]
    rw [ih _ k h2]
    by_cases hk : kv.1 = k
    · subst hk
      have hnone : lookupCfg kv.1 P = none := lookupCfg_eq_none h1
      rw [hnone, show lookupCfg kv.1 (kv :: P) = some kv.2 from by
        rw [lookupCfg, if_pos rfl]]
      show lookupCfg kv.1 (recordSet C kv.1 kv.2) = some kv.2
      rw [lookupCfg_recordSet, if_pos rfl]
    · rw [show lookupCfg k (kv :: P) = lookupCfg k P from by
        rw [lookupCfg, if_neg hk]]
      cases hP : lookupCfg k P with
      | some v => rfl
      | none =>
        show lookupCfg k (recordSet C kv.1 kv.2) = lookupCfg k C
        rw [lookupCfg_recordSet, if_neg hk]

/-- C5: the Patch operation stores the shallow merge of the partial map
over the current config — every key of the partial map is added or
overwritten and no other key changes or disappears — and reports exactly
the keys of the partial map as `updated`; concretely, patching the stored
config `A=1, B=2` with `B=3` stores `A=1, B=3` and reports
`updated = [B]`. -/
theorem patchConfig_semantics (C P : List (Line × Line))
    (hP : (P.map Prod.fst).Nodup) :
    (∀ k, lookupCfg k (mergeCfg C P) =
        match lookupCfg k P with
        | some v => some v
        | none => lookupCfg k C) ∧
    (∀ storedContent, (patchConfig storedContent P).2 = P.map Prod.fst) ∧
    (patchConfig ("A=1\nB=2".toList) [(['B'], ['3'])]).1 = "A=1\nB=3".toList ∧
    readEnvContent (patchConfig ("A=1\nB=2".toList) [(['B'], ['3'])]).1 =
      [(['A'], ['1']), (['B'], ['3'])] ∧
    (patchConfig ("A=1\nB=2".toList) [(['B'], ['3'])]).2 = [['B']] :=
  ⟨fun k => lookupCfg_mergeCfg P C k hP, fun _ => rfl, by decide, by decide, by decide⟩

/-- Witness for C5: the unrelated key `A` keeps its value `1` under the
merge with partial map `B=3`. -/
theorem patchConfig_semantics_witness :
    (([(['B'], ['3'])] : List (Line × Line)).map Prod.fst).Nodup ∧
    lookupCfg ['A'] (mergeCfg [(['A'], ['1']), (['B'], ['2'])] [(['B'], ['3'])]) =
      some ['1'] :=
  ⟨by decide,
    ((patchConfig_semantics [(['A'], ['1']), (['B'], ['2'])] [(['B'], ['3'])]
        (by decide)).1 ['A']).trans (by decide)⟩

/-!
## Process lifecycle lemmas
-/

lemma aliveAt_procExit_self (w : World) (p : Nat) (c : Option Int) :
    aliveAt (procExit w p c) p = false := by
  simp [aliveAt, procExit]

lemma WFWorld_procExit {w : World} (p : Nat) (c : Option Int) (hw : WFWorld w) :
    WFWorld (procExit w p c) := by
  refine ⟨?_, hw.2⟩
  intro q ps h hex
  simp only [procExit] at h
  by_cases hq : q = p
  · rw [if_pos hq] at h
    cases h
    rfl
  · rw [if_neg hq] at h
    exact hw.1 q ps h hex

lemma WFWorld_spawnProc {w : World} (hw : WFWorld w) : WFWorld (spawnProc w) := by
  refine ⟨?_, Nat.le_succ_of_le hw.2⟩
  intro q ps h hex
  simp only [spawnProc] at h
  by_cases hq : q = w.next
  · rw [if_pos hq] at h
    cases h
    exact absurd rfl hex
  · rw [if_neg hq] at h
    exact hw.1 q ps h hex

lemma aliveAt_spawnProc_of_ne {w : World} {p : Nat} (h : p ≠ w.next) :
    aliveAt (spawnProc w) p = aliveAt w p := by
  simp [aliveAt, spawnProc, h]

lemma killLoop_spec (p : Nat) (fuel : Nat) :
    ∀ (m : Mgr) (w : World) (resp : Option (Nat × Option Int)),
      WFWorld w → (m.childProcess = none → aliveAt w p = false) →
      (killLoop p m w resp fuel).1.childProcess = none ∧
      aliveAt (killLoop p m w resp fuel).2 p = false ∧
      WFWorld (killLoop p m w resp fuel).2 ∧
      (killLoop p m w resp fuel).2.next = w.next := by
  induction fuel with
  | zero =>
    intro m w resp hw _
    exact ⟨rfl, aliveAt_procExit_self w p none, WFWorld_procExit p none hw, rfl⟩
  | succ n ih =>
    intro m w resp hw hcn
    simp only [killLoop]
    by_cases h1 : m.childProcess = none
    · rw [if_pos h1]
      exact ⟨h1, hcn h1, hw, rfl⟩
    · rw [if_neg h1]
      by_cases h2 : exitCodeAt w p ≠ none
      · rw [if_pos h2]
        refine ⟨rfl, ?_, hw, rfl⟩
        cases hps : w.procs p with
        | none => simp [aliveAt, hps]
        | some ps =>
          have hex : ps.exitCode ≠ none := by
            simp only [exitCodeAt, hps] at h2
            exact h2
          simp [aliveAt, hps, hw.1 p ps hps hex]
      · rw [if_neg h2]
        by_cases h3 : aliveAt w p = false
        · rw [if_pos h3]
          exact ⟨rfl, h3, hw, rfl⟩
        · rw [if_neg h3]
          cases resp with
          | none => exact ih m w none hw hcn
          | some dc =>
            obtain ⟨d, code⟩ := dc
            cases d with
            | zero =>
              exact ih (watcherFire m code) (procExit w p code) none
                (WFWorld_procExit p code hw)
                (fun _ => aliveAt_procExit_self w p code)
            | succ d' => exact ih m w (some (d', code)) hw hcn

lemma kill_noop {m : Mgr} (w : World) (resp : Option (Nat × Option Int)) (fuel : Nat)
    (h : m.childProcess = none) : kill m w resp fuel = (m, w) := by
  simp only [kill, h]

lemma kill_term {m : Mgr} {w : World} {p : Nat}
    (resp : Option (Nat × Option Int)) (fuel : Nat)
    (hw : WFWorld w) (hp : m.childProcess = some p) (hp0 : p ≠ 0) :
    (kill m w resp fuel).1.childProcess = none ∧
    aliveAt (kill m w resp fuel).2 p = false ∧
    WFWorld (kill m w resp fuel).2 ∧
    (kill m w resp fuel).2.next = w.next := by
  have hkl : kill m w resp fuel = killLoop p m w resp fuel := by
    simp only [kill, hp]
    rw [if_neg hp0]
  rw [hkl]
  refine killLoop_spec p fuel m w resp hw ?_
  intro hc
  rw [hp] at hc
  exact Option.noConfusion hc

lemma kill_preserves (m : Mgr) (w : World) (resp : Option (Nat × Option Int))
    (fuel : Nat) (hw : WFWorld w) :
    WFWorld (kill m w resp fuel).2 ∧ (kill m w resp fuel).2.next = w.next := by
  cases hc : m.childProcess with
  | none => rw [kill_noop w resp fuel hc]; exact ⟨hw, rfl⟩
  | some p =>
    by_cases hp0 : p = 0
    · have hk : kill m w resp fuel = ({ m with childProcess := none }, w) := by
        simp only [kill, hc]
        rw [if_pos hp0]
      rw [hk]
      exact ⟨hw, rfl⟩
    · have h := kill_term resp fuel hw hc hp0
      exact ⟨h.2.2.1, h.2.2.2⟩

lemma startKillPhase_preserves (m : Mgr) (w : World) (o : StartOracle) (fuel : Nat)
    (hw : WFWorld w) :
    WFWorld (startKillPhase m w o fuel).2 ∧ (startKillPhase m w o fuel).2.next = w.next := by
  cases hc : m.childProcess with
  | none =>
    have hn : startKillPhase m w o fuel = (m, w) := by simp only [startKillPhase, hc]
    rw [hn]
    exact ⟨hw, rfl⟩
  | some p =>
    have hs : startKillPhase m w o fuel = kill m w o.termResp fuel := by
      simp only [startKillPhase, hc]
    rw [hs]
    exact kill_preserves m w o.termResp fuel hw

lemma start_kills_previous (m : Mgr) (w : World) (o : StartOracle) (fuel : Nat) {p : Nat}
    (hw : WFWorld w) (hp : m.childProcess = some p) (hp0 : p ≠ 0) (hne : p ≠ w.next) :
    aliveAt (start m w o fuel).2 p = false := by
  have hkp : ({ m with lastError := ([] : Line) } : Mgr).childProcess = some p := hp
  have hsk : startKillPhase { m with lastError := [] } w o fuel =
      kill { m with lastError := [] } w o.termResp fuel := by
    simp only [startKillPhase, hp]
  have h := kill_term o.termResp fuel hw hkp hp0
  cases ho : o.spawnErr with
  | some e =>
    simp only [start, ho]
    rw [hsk]
    exact h.2.1
  | none =>
    simp only [start, ho]
    rw [hsk, aliveAt_spawnProc_of_ne (by rw [h.2.2.2]; exact hne)]
    exact h.2.1

/-!
## C2 — no double-spawn
-/

/-- C2: a `start` call never leaves two simultaneously live children.
When the first of two back-to-back `start` calls spawned a child (at pid
`w.next`), that child is no longer alive once the second call returns —
`start` awaits the full termination sequence before spawning — so at most
one of the pids spawned by the two calls is alive afterwards, whatever
the spawn outcomes and SIGTERM responses are. -/
theorem start_no_double_spawn (m : Mgr) (w : World) (o₁ o₂ : StartOracle)
    (f₁ f₂ : Nat) (hw : WFWorld w) :
    (o₁.spawnErr = none →
      aliveAt (start (start m w o₁ f₁).1 (start m w o₁ f₁).2 o₂ f₂).2 w.next = false) ∧
    (((if o₁.spawnErr = none then [w.next] else []) ++
        (if o₂.spawnErr = none then [(start m w o₁ f₁).2.next] else [])).filter
          (fun p => aliveAt (start (start m w o₁ f₁).1 (start m w o₁ f₁).2 o₂ f₂).2 p)).length
      ≤ 1 := by
  have hpre := startKillPhase_preserves { m with lastError := [] } w o₁ f₁ hw
  by_cases ho₁ : o₁.spawnErr = none
  · have hr₁m : (start m w o₁ f₁).1.childProcess = some w.next := by
      simp only [start, ho₁]
      rw [hpre.2]
    have hr₁w : (start m w o₁ f₁).2 = spawnProc (startKillPhase { m with lastError := [] } w o₁ f₁).2 := by
      simp only [start, ho₁]
    have hw₁ : WFWorld (start m w o₁ f₁).2 := by
      rw [hr₁w]
      exact WFWorld_spawnProc hpre.1
    have hn₁ : (start m w o₁ f₁).2.next = w.next + 1 := by
      rw [hr₁w]
      show (startKillPhase { m with lastError := [] } w o₁ f₁).2.next + 1 = w.next + 1
      rw [hpre.2]
    have hdead : aliveAt (start (start m w o₁ f₁).1 (start m w o₁ f₁).2 o₂ f₂).2 w.next
        = false := by
      refine start_kills_previous _ _ o₂ f₂ hw₁ hr₁m ?_ ?_
      · exact Nat.one_le_iff_ne_zero.mp hw.2
      · rw [hn₁]; omega
    refine ⟨fun _ => hdead, ?_⟩
    rw [if_pos ho₁]
    by_cases ho₂ : o₂.spawnErr = none
    · rw [if_pos ho₂]
      rw [show ([w.next] ++ [(start m w o₁ f₁).2.next]) =
        w.next :: [(start m w o₁ f₁).2.next] from rfl]
      rw [List.filter_cons, hdead]
      simp only [Bool.false_eq_true, if_false]
      exact le_trans (List.length_filter_le _ _) (by simp)
    · rw [if_neg ho₂]
      rw [show ([w.next] ++ ([] : List Nat)) = w.next :: ([] : List Nat) from by simp]
      rw [List.filter_cons, hdead]
      simp
  · refine ⟨fun h => absurd h ho₁, ?_⟩
    rw [if_neg ho₁, List.nil_append]
    by_cases ho₂ : o₂.spawnErr = none
    · rw [if_pos ho₂]
      exact le_trans (List.length_filter_le _ _) (by simp)
    · rw [if_neg ho₂]
      simp

/-- Witness for C2: from a fresh world, two consecutive successful
`start` calls leave the first child dead. -/
theorem start_no_double_spawn_witness :
    WFWorld ⟨fun _ => none, 1⟩ ∧
    aliveAt (start (start ⟨none, []⟩ ⟨fun _ => none, 1⟩ ⟨none, none⟩ 3).1
        (start ⟨none, []⟩ ⟨fun _ => none, 1⟩ ⟨none, none⟩ 3).2 ⟨none, none⟩ 3).2 1 = false := by
  have hw : WFWorld ⟨fun _ => none, 1⟩ :=
    ⟨fun _ _ h _ => Option.noConfusion h, le_refl 1⟩
  exact ⟨hw,
    (start_no_double_spawn ⟨none, []⟩ ⟨fun _ => none, 1⟩ ⟨none, none⟩ ⟨none, none⟩ 3 3 hw).1 rfl⟩

/-!
## C6 — spawn-failure recovery
-/

/-- C6: when spawning throws, `start` catches the failure: the handle is
left null (`running = false`), the accumulated error is exactly
`Failed to start process: ` followed by the thrown error (so
`getStatus().lastError` is non-null and mentions the failure), and
`start` returns normally — nothing is rethrown, which the embedding
reflects by `start` being a total function. -/
theorem start_spawn_failure_recovery (m : Mgr) (w : World)
    (resp : Option (Nat × Option Int)) (fuel : Nat) (e : Line) :
    (start m w ⟨some e, resp⟩ fuel).1.childProcess = none ∧
    (start m w ⟨some e, resp⟩ fuel).1.lastError = spawnFailText ++ e ∧
    (getStatus (start m w ⟨some e, resp⟩ fuel).1 (start m w ⟨some e, resp⟩ fuel).2).running
      = false ∧
    (getStatus (start m w ⟨some e, resp⟩ fuel).1 (start m w ⟨some e, resp⟩ fuel).2).lastError
      = some (spawnFailText ++ e) := by
  have hne : spawnFailText ++ e ≠ [] := by
    have hs : spawnFailText ++ e = 'F' :: ("ailed to start process: ".toList ++ e) := rfl
    rw [hs]
    simp
  refine ⟨rfl, rfl, rfl, ?_⟩
  show (if (spawnFailText ++ e : Line) = [] then none else some (spawnFailText ++ e))
      = some (spawnFailText ++ e)
  rw [if_neg hne]

/-!
## C7 — exit recording
-/

/-- C7: on a non-zero, non-null exit code the exit watcher appends the
note `\nProcess exited with code N` to the accumulated error buffer and
clears the handle, so `getStatus` afterwards reports `running = false`
and a `lastError` carrying the code. -/
theorem exit_watcher_records_code (m : Mgr) (w : World) (c : Int) (hc : c ≠ 0) :
    (watcherFire m (some c)).lastError = m.lastError ++ exitNote c ∧
    (watcherFire m (some c)).childProcess = none ∧
    (getStatus (watcherFire m (some c)) w).running = false ∧
    (m.lastError = [] →
      (getStatus (watcherFire m (some c)) w).lastError = some (exitNote c)) := by
  have h1 : (watcherFire m (some c)).lastError = m.lastError ++ exitNote c := by
    simp only [watcherFire]
    rw [if_neg hc]
  refine ⟨h1, rfl, rfl, ?_⟩
  intro h0
  show (if (watcherFire m (some c)).lastError = [] then none
        else some (watcherFire m (some c)).lastError) = some (exitNote c)
  rw [h1, h0, List.nil_append, if_neg (by simp [exitNote])]

/-- Witness for C7 at exit code 7: the recorded note is the literal text
`\nProcess exited with code 7`. -/
theorem exit_watcher_records_code_witness :
    ((7 : Int) ≠ 0) ∧
    (watcherFire ⟨some 1, []⟩ (some 7)).lastError = ([] : Line) ++ exitNote 7 ∧
    exitNote 7 = "\nProcess exited with code 7".toList :=
  ⟨by decide,
    (exit_watcher_records_code ⟨some 1, []⟩ ⟨fun _ => none, 1⟩ 7 (by decide)).1,
    by decide⟩

/-!
## C8 — idempotent kill
-/

/-- C8: `kill` on a manager whose handle is null returns immediately with
the manager and world unchanged, `getStatus().running` is `false`, and
running `kill` again from the resulting state is the same as running it
once. -/
theorem kill_idempotent_no_process (m : Mgr) (w : World)
    (r₁ : Option (Nat × Option Int)) (f₁ : Nat)
    (r₂ : Option (Nat × Option Int)) (f₂ : Nat)
    (h : m.childProcess = none) :
    kill m w r₁ f₁ = (m, w) ∧
    (getStatus m w).running = false ∧
    kill (kill m w r₁ f₁).1 (kill m w r₁ f₁).2 r₂ f₂ = kill m w r₁ f₁ := by
  have h1 : kill m w r₁ f₁ = (m, w) := kill_noop w r₁ f₁ h
  refine ⟨h1, ?_, ?_⟩
  · simp only [getStatus, h]
  · rw [h1]
    exact kill_noop w r₂ f₂ h

/-- Witness for C8 on a stopped manager in a fresh world. -/
theorem kill_idempotent_no_process_witness :
    ((⟨none, []⟩ : Mgr).childProcess = none) ∧
    kill ⟨none, []⟩ ⟨fun _ => none, 1⟩ none 50 = (⟨none, []⟩, ⟨fun _ => none, 1⟩) :=
  ⟨rfl,
    (kill_idempotent_no_process ⟨none, []⟩ ⟨fun _ => none, 1⟩ none 50 none 50 rfl).1⟩

end ProcessPastry
